import Mathlib

/-!
# Verification of the code-challenge repository

This file gives a shallow embedding of the repository's source and settles
the specification claims against it.

* `sum_to_n_a`, `sum_to_n_b`, `sum_to_n_c` embed `src/problem4/sum_to_n.ts`.
  All inputs are already integers, so the `Math.trunc` normalisation at the
  top of each TypeScript function is the identity and is not repeated here.
* `detectAnomalies` embeds the anomaly-scoring function written out in
  `src/problem4/README.md` (§1.4).  The values the TypeScript reads from its
  environment (history, clock, IPs, geolocation) are passed explicitly in a
  `RecentHistory` record.
* `updateResource` embeds the resource controller of problem 5.
* The score-update pipeline (IdempotencyLedger, ScoreStore, RankIndex,
  UpdatePipeline) has no working implementation in the repository - the
  design documents only sketch it - so it is modelled from the spec, with
  every such definition marked `Modelled from the spec:`.
-/

/-! ## Problem 4: sum_to_n (src/problem4/sum_to_n.ts) -/

/-- The accumulating `for` loop `for (let i = a; i <= b; i++) sum += i`
of `sum_to_n_a`: the sum of the integers `i` with `a ≤ i ≤ b`. -/
def upSum (a b : Int) : Int :=
  if a ≤ b then a + upSum (a + 1) b else 0
termination_by (b + 1 - a).toNat
decreasing_by
  omega

/-- `sum_to_n_a` from `src/problem4/sum_to_n.ts`: iterative implementation.
For `n ≥ 1` it loops `i = 1..n`, otherwise it loops `i = n..1`. -/
def sum_to_n_a (n : Int) : Int :=
  if 1 ≤ n then upSum 1 n else upSum n 1

/-- `sum_to_n_b` from `src/problem4/sum_to_n.ts`: recursive implementation. -/
def sum_to_n_b (n : Int) : Int :=
  if n = 1 then 1
  else if n > 1 then n + sum_to_n_b (n - 1)
  else n + sum_to_n_b (n + 1)
termination_by (n - 1).natAbs
decreasing_by
  · omega
  · omega

/-- `sum_to_n_c` from `src/problem4/sum_to_n.ts`: closed-form implementation.
Both products are even, so JavaScript's exact float division agrees with
integer division here. -/
def sum_to_n_c (n : Int) : Int :=
  if 1 ≤ n then n * (n + 1) / 2 else (n + 1) * (2 - n) / 2

/-- The mathematical reference value: the sum of all integers from
`min n 1` to `max n 1` inclusive. -/
def intervalSum (n : Int) : Int :=
  ∑ i in Finset.Icc (min n 1) (max n 1), i

/-- Fuel-indexed variant of `sum_to_n_b`, used to reason about the depth of
the TypeScript recursion: `none` means the fuel ran out before the base
case was reached. -/
def sum_to_n_b_fuel : Nat → Int → Option Int
  | 0, _ => none
  | f + 1, n =>
    if n = 1 then some 1
    else if n > 1 then (sum_to_n_b_fuel f (n - 1)).map (fun s => n + s)
    else (sum_to_n_b_fuel f (n + 1)).map (fun s => n + s)

lemma upSum_of_gt {a b : Int} (h : b < a) : upSum a b = 0 := by
  rw [upSum]
  simp [Int.not_le.mpr h]

lemma upSum_step {a b : Int} (h : a ≤ b) : upSum a b = a + upSum (a + 1) b := by
  rw [upSum]
  simp [h]

lemma Icc_eq_insert_left {a b : Int} (h : a ≤ b) :
    Finset.Icc a b = insert a (Finset.Icc (a + 1) b) := by
  ext x
  simp only [Finset.mem_Icc, Finset.mem_insert]
  omega

lemma upSum_eq_sum_Icc (k : Nat) :
    ∀ a b : Int, (b + 1 - a).toNat = k → upSum a b = ∑ i in Finset.Icc a b, i := by
  induction k with
  | zero =>
    intro a b hk
    have hb : b < a := by omega
    rw [upSum_of_gt hb, Finset.Icc_eq_empty (by omega), Finset.sum_empty]
  | succ k ih =>
    intro a b hk
    have hab : a ≤ b := by omega
    rw [upSum_step hab, ih (a + 1) b (by omega), Icc_eq_insert_left hab,
      Finset.sum_insert (by simp)]

lemma upSum_spec (a b : Int) : upSum a b = ∑ i in Finset.Icc a b, i :=
  upSum_eq_sum_Icc (b + 1 - a).toNat a b rfl

lemma sum_to_n_a_eq_intervalSum (n : Int) : sum_to_n_a n = intervalSum n := by
  unfold sum_to_n_a intervalSum
  by_cases h : 1 ≤ n
  · rw [if_pos h, upSum_spec, min_eq_right h, max_eq_left h]
  · rw [if_neg h, upSum_spec, min_eq_left (by omega), max_eq_right (by omega)]

lemma intervalSum_mul_two (n : Int) :
    intervalSum n * 2 = if 1 ≤ n then n * (n + 1) else (n + 1) * (2 - n) := by
  unfold intervalSum
  by_cases h : 1 ≤ n
  · rw [if_pos h, min_eq_right h, max_eq_left h, ← upSum_spec]
    have key : ∀ k : Nat, ∀ a : Int, upSum a (a + k) * 2 = (k + 1) * (2 * a + k) := by
      intro k
      induction k with
      | zero => intro a; rw [show a + (0 : Nat) = a by omega, upSum_step le_rfl,
          upSum_of_gt (by omega)]; ring
      | succ k ih =>
        intro a
        rw [upSum_step (by omega), show a + (k + 1 : Nat) = (a + 1) + k by push_cast; ring,
          add_mul, ih (a + 1)]
        push_cast
        ring
    have h2 := key (n - 1).toNat 1
    rw [show (1 : Int) + ((n - 1).toNat : Int) = n by omega] at h2
    rw [h2]
    have : ((n - 1).toNat : Int) = n - 1 := by omega
    rw [this]
    ring
  · rw [if_neg h, min_eq_left (by omega), max_eq_right (by omega), ← upSum_spec]
    have key : ∀ k : Nat, ∀ a : Int, upSum a (a + k) * 2 = (k + 1) * (2 * a + k) := by
      intro k
      induction k with
      | zero => intro a; rw [show a + (0 : Nat) = a by omega, upSum_step le_rfl,
          upSum_of_gt (by omega)]; ring
      | succ k ih =>
        intro a
        rw [upSum_step (by omega), show a + (k + 1 : Nat) = (a + 1) + k by push_cast; ring,
          add_mul, ih (a + 1)]
        push_cast
        ring
    have h2 := key (1 - n).toNat n
    rw [show n + ((1 - n).toNat : Int) = 1 by omega] at h2
    rw [h2]
    have : ((1 - n).toNat : Int) = 1 - n := by omega
    rw [this]
    ring

lemma sum_to_n_c_eq_intervalSum (n : Int) : sum_to_n_c n = intervalSum n := by
  have h2 := intervalSum_mul_two n
  unfold sum_to_n_c
  by_cases h : 1 ≤ n
  · rw [if_pos h] at h2 ⊢
    set m := n * (n + 1) with hm
    omega
  · rw [if_neg h] at h2 ⊢
    set m := (n + 1) * (2 - n) with hm
    omega

lemma sum_to_n_b_eq_intervalSum (n : Int) : sum_to_n_b n = intervalSum n := by
  have main : ∀ k : Nat, ∀ n : Int, (n - 1).natAbs = k → sum_to_n_b n = intervalSum n := by
    intro k
    induction k using Nat.strong_induction_on with
    | _ k ih =>
      intro n hk
      rw [sum_to_n_b]
      by_cases h1 : n = 1
      · subst h1
        simp [intervalSum]
      · rw [if_neg h1]
        by_cases h2 : n > 1
        · rw [if_pos h2, ih (n - 1 - 1).natAbs (by omega) (n - 1) rfl]
          unfold intervalSum
          rw [min_eq_right (by omega), min_eq_right (by omega),
            max_eq_left (by omega), max_eq_left (by omega)]
          have : Finset.Icc (1 : Int) n = insert n (Finset.Icc 1 (n - 1)) := by
            ext x
            simp only [Finset.mem_Icc, Finset.mem_insert]
            omega
          rw [this, Finset.sum_insert (by simp)]
        · rw [if_neg h2, ih (n + 1 - 1).natAbs (by omega) (n + 1) rfl]
          unfold intervalSum
          rw [min_eq_left (by omega), min_eq_left (by omega),
            max_eq_right (by omega), max_eq_right (by omega)]
          rw [Icc_eq_insert_left (by omega : n ≤ 1),
            Finset.sum_insert (by simp)]
  exact main (n - 1).natAbs n rfl

lemma sum_to_n_b_fuel_spec (k : Nat) :
    ∀ n : Int, (n - 1).natAbs = k →
      sum_to_n_b_fuel (k + 1) n = some (sum_to_n_b n) := by
  induction k using Nat.strong_induction_on with
  | _ k ih =>
    intro n hk
    rw [sum_to_n_b_fuel, sum_to_n_b]
    by_cases h1 : n = 1
    · simp [h1]
    · rw [if_neg h1, if_neg h1]
      by_cases h2 : n > 1
      · rw [if_pos h2, if_pos h2]
        have hlt : (n - 1 - 1).natAbs < k := by omega
        have step := ih (n - 1 - 1).natAbs hlt (n - 1) rfl
        have hk' : k = (n - 1 - 1).natAbs + 1 + ((k - 1) - (n - 1 - 1).natAbs) := by omega
        have mono : ∀ f m : Nat, ∀ x v, sum_to_n_b_fuel f x = some v →
            sum_to_n_b_fuel (f + m) x = some v := by
          intro f
          induction f with
          | zero => intro m x v hv; simp [sum_to_n_b_fuel] at hv
          | succ f ihf =>
            intro m x v hv
            rw [sum_to_n_b_fuel] at hv
            rw [show f + 1 + m = (f + m) + 1 by omega, sum_to_n_b_fuel]
            by_cases hx1 : x = 1
            · simpa [hx1] using hv
            · rw [if_neg hx1] at hv ⊢
              by_cases hx2 : x > 1
              · rw [if_pos hx2] at hv ⊢
                cases hfx : sum_to_n_b_fuel f (x - 1) with
                | none => rw [hfx] at hv; simp at hv
                | some w =>
                  rw [hfx] at hv
                  rw [ihf m (x - 1) w hfx]
                  simpa using hv
              · rw [if_neg hx2] at hv ⊢
                cases hfx : sum_to_n_b_fuel f (x + 1) with
                | none => rw [hfx] at hv; simp at hv
                | some w =>
                  rw [hfx] at hv
                  rw [ihf m (x + 1) w hfx]
                  simpa using hv
        have := mono ((n - 1 - 1).natAbs + 1) (k - ((n - 1 - 1).natAbs + 1)) (n - 1)
          (sum_to_n_b (n - 1)) step
        rw [show (n - 1 - 1).natAbs + 1 + (k - ((n - 1 - 1).natAbs + 1)) = k by omega] at this
        rw [this]
        simp
      · rw [if_neg h2, if_neg h2]
        have hlt : (n + 1 - 1).natAbs < k := by omega
        have step := ih (n + 1 - 1).natAbs hlt (n + 1) rfl
        have mono : ∀ f m : Nat, ∀ x v, sum_to_n_b_fuel f x = some v →
            sum_to_n_b_fuel (f + m) x = some v := by
          intro f
          induction f with
          | zero => intro m x v hv; simp [sum_to_n_b_fuel] at hv
          | succ f ihf =>
            intro m x v hv
            rw [sum_to_n_b_fuel] at hv
            rw [show f + 1 + m = (f + m) + 1 by omega, sum_to_n_b_fuel]
            by_cases hx1 : x = 1
            · simpa [hx1] using hv
            · rw [if_neg hx1] at hv ⊢
              by_cases hx2 : x > 1
              · rw [if_pos hx2] at hv ⊢
                cases hfx : sum_to_n_b_fuel f (x - 1) with
                | none => rw [hfx] at hv; simp at hv
                | some w =>
                  rw [hfx] at hv
                  rw [ihf m (x - 1) w hfx]
                  simpa using hv
              · rw [if_neg hx2] at hv ⊢
                cases hfx : sum_to_n_b_fuel f (x + 1) with
                | none => rw [hfx] at hv; simp at hv
                | some w =>
                  rw [hfx] at hv
                  rw [ihf m (x + 1) w hfx]
                  simpa using hv
        have := mono ((n + 1 - 1).natAbs + 1) (k - ((n + 1 - 1).natAbs + 1)) (n + 1)
          (sum_to_n_b (n + 1)) step
        rw [show (n + 1 - 1).natAbs + 1 + (k - ((n + 1 - 1).natAbs + 1)) = k by omega] at this
        rw [this]
        simp

/-- C8: the three implementations of `sum_to_n` agree for every integer `n`,
and each equals the sum of all integers from `min n 1` to `max n 1`. -/
theorem cl8_sum_to_n_implementations_agree (n : Int) :
    sum_to_n_a n = intervalSum n ∧ sum_to_n_b n = intervalSum n ∧
      sum_to_n_c n = intervalSum n :=
  ⟨sum_to_n_a_eq_intervalSum n, sum_to_n_b_eq_intervalSum n,
    sum_to_n_c_eq_intervalSum n⟩

/-- C9: `sum_to_n_b` is total: on input `n` the recursion reaches the base
case within `|n - 1| + 1` calls, so the fuel-indexed variant succeeds with
that much fuel and returns the value of `sum_to_n_b`. -/
theorem cl9_sum_to_n_b_terminates (n : Int) :
    sum_to_n_b_fuel ((n - 1).natAbs + 1) n = some (sum_to_n_b n) :=
  sum_to_n_b_fuel_spec (n - 1).natAbs n rfl

/-! ## FraudScorer: `detectAnomalies` (src/problem4/README.md §1.4) -/

/-- The values `detectAnomalies` reads from its surroundings (database,
clock, request, geolocation service), passed explicitly: the user's last-10
reward history, the current clock, the account creation time, the number of
completions in the trailing 5-minute window, the previous and current client
IPs, and the geolocation map.  This record plays the role of the spec's
`recentHistory` argument. -/
structure RecentHistory where
  rewards : List Int
  now : Int
  accountCreatedAt : Int
  actionsLast5Min : Nat
  lastIP : Option String
  currentIP : String
  countryOf : String → String

/-- Check 1 of `detectAnomalies`: `actionReward > avgReward * 5` where
`avgReward` is the mean of the last-10 reward history.  On an empty history
the TypeScript average is `NaN` and the comparison is false; on a non-empty
history the float comparison is the exact rational comparison below. -/
def rewardJumpCheck (actionReward : Int) (h : RecentHistory) : Bool :=
  decide (h.rewards.length ≠ 0 ∧
    actionReward * h.rewards.length > 5 * h.rewards.sum)

/-- Check 2 of `detectAnomalies`: `Date.now() - user.createdAt < 24*60*60*1000`. -/
def newAccountCheck (h : RecentHistory) : Bool :=
  decide (h.now - h.accountCreatedAt < 24 * 60 * 60 * 1000)

/-- Check 3 of `detectAnomalies`: more than 20 completions in the trailing
5-minute window. -/
def frequencyCheck (h : RecentHistory) : Bool :=
  decide (h.actionsLast5Min > 20)

/-- Check 4 of `detectAnomalies`: a previous client IP exists, differs from
the current one, and geolocates to a different country. -/
def geoCheck (h : RecentHistory) : Bool :=
  match h.lastIP with
  | some ip =>
      decide (ip ≠ h.currentIP) && decide (h.countryOf ip ≠ h.countryOf h.currentIP)
  | none => false

/-- `detectAnomalies` from `src/problem4/README.md` §1.4, with its
environment passed in `h`.  Returns `(isSuspicious, anomalyScore, reasons)`.
The reason strings stand for the interpolated messages of the source. -/
def detectAnomalies (actionReward : Int) (h : RecentHistory) :
    Bool × Int × List String :=
  let s1 : Int := if rewardJumpCheck actionReward h then 30 else 0
  let s2 : Int := if newAccountCheck h then 20 else 0
  let s3 : Int := if frequencyCheck h then 40 else 0
  let s4 : Int := if geoCheck h then 25 else 0
  let anomalyScore := s1 + s2 + s3 + s4
  let reasons :=
    (if rewardJumpCheck actionReward h then ["Exceptional reward"] else []) ++
    (if newAccountCheck h then ["New account (< 24h)"] else []) ++
    (if frequencyCheck h then ["High action frequency"] else []) ++
    (if geoCheck h then ["Geographic change"] else [])
  (anomalyScore > 70, anomalyScore, reasons)

/-- A concrete input on which all four anomaly checks trigger. -/
def allChecksInput : RecentHistory :=
  { rewards := [1]
    now := 0
    accountCreatedAt := 0
    actionsLast5Min := 21
    lastIP := some "10.0.0.1"
    currentIP := "10.0.0.2"
    countryOf := fun ip => ip }

/-- C4, counterexample: the code does not cap the anomaly score at 100.
When all four checks trigger the returned suspicion score is
30 + 20 + 40 + 25 = 115 > 100. -/
theorem cl4_counterexample_no_cap :
    (detectAnomalies 6 allChecksInput).2.1 = 115 ∧
      ¬ (detectAnomalies 6 allChecksInput).2.1 ≤ 100 := by
  constructor <;> decide

/-- C4, amended: `detectAnomalies` returns the uncapped sum of the fixed
weights of exactly the triggered checks, so the suspicion score always lies
between 0 and 115 inclusive (not 100). -/
theorem cl4_anomaly_score_is_weight_sum (actionReward : Int) (h : RecentHistory) :
    (detectAnomalies actionReward h).2.1 =
        (if rewardJumpCheck actionReward h then 30 else 0) +
        (if newAccountCheck h then 20 else 0) +
        (if frequencyCheck h then 40 else 0) +
        (if geoCheck h then 25 else 0) ∧
      0 ≤ (detectAnomalies actionReward h).2.1 ∧
      (detectAnomalies actionReward h).2.1 ≤ 115 := by
  refine ⟨rfl, ?_, ?_⟩ <;>
    · unfold detectAnomalies
      dsimp only
      split <;> split <;> split <;> split <;> decide

/-! ## Problem 5: resource controller (src/unnamed/part_001) -/

/-- The `Resource` entity of `src/problem5/src/models/resource.ts`:
a generated numeric primary key, a required `name`, a nullable
`description`. -/
structure Resource where
  id : Nat
  name : String
  description : Option String
deriving DecidableEq

/-- The body of a PUT `/resources/:id` request as read by `updateResource`:
each field is `none` when absent or null. -/
structure UpdateBody where
  name : Option String
  description : Option String
deriving DecidableEq

/-- `Resource.findOneBy({ id })`: the stored resource with the given id. -/
def findOneById (store : List Resource) (i : Nat) : Option Resource :=
  store.find? (fun r => r.id = i)

/-- `resource.save()` on an entity loaded from the store: the row with the
entity's primary key is replaced. -/
def saveResource (store : List Resource) (r : Resource) : List Resource :=
  store.map (fun x => if x.id = r.id then r else x)

/-- `updateResource` from the resource controller (src/unnamed/part_001):
looks the resource up by id, overwrites `name` and `description` only when
the body supplies them (`?? ` keeps the old value on null/undefined), saves,
and returns the updated resource; `none` models the 404 response. -/
def updateResource (store : List Resource) (i : Nat) (body : UpdateBody) :
    Option Resource × List Resource :=
  match findOneById store i with
  | none => (none, store)
  | some r =>
      let r2 : Resource :=
        { id := r.id
          name := body.name.getD r.name
          description := match body.description with
            | some d => some d
            | none => r.description }
      (some r2, saveResource store r2)

/-- C10: `updateResource` only touches the fields present in the body: on an
existing resource, an absent/null `name` or `description` is kept unchanged,
the `id` is never changed, and rows with other ids are untouched. -/
theorem cl10_updateResource_frame (store : List Resource) (i : Nat)
    (body : UpdateBody) (r : Resource) (hfind : findOneById store i = some r) :
    ∃ r2, updateResource store i body = (some r2, saveResource store r2) ∧
      r2.id = r.id ∧
      (body.name = none → r2.name = r.name) ∧
      (body.description = none → r2.description = r.description) ∧
      (∀ x ∈ store, x.id ≠ r2.id → x ∈ (updateResource store i body).2) := by
  refine ⟨{ id := r.id
            name := body.name.getD r.name
            description := match body.description with
              | some d => some d
              | none => r.description }, ?_, rfl, ?_, ?_, ?_⟩
  · unfold updateResource
    rw [hfind]
  · intro hn
    rw [hn]
    rfl
  · intro hd
    rw [hd]
  · intro x hx hne
    unfold updateResource
    rw [hfind]
    dsimp only
    unfold saveResource
    have : (if x.id = r.id then
        ({ id := r.id
           name := body.name.getD r.name
           description := match body.description with
             | some d => some d
             | none => r.description } : Resource) else x) = x := by
      rw [if_neg hne]
    rw [← this]
    exact List.mem_map_of_mem _ hx

/-- C10 witness: updating resource 1 with an empty body keeps its name and
description and its id, and leaves resource 2 in place. -/
theorem cl10_witness :
    findOneById [⟨1, "a", some "d"⟩, ⟨2, "b", none⟩] 1 =
        some (⟨1, "a", some "d"⟩ : Resource) ∧
      ∃ r2, updateResource [⟨1, "a", some "d"⟩, ⟨2, "b", none⟩] 1 ⟨none, none⟩ =
          (some r2, saveResource [⟨1, "a", some "d"⟩, ⟨2, "b", none⟩] r2) ∧
        r2.id = 1 ∧
        ((none : Option String) = none → r2.name = "a") ∧
        ((none : Option String) = none → r2.description = some "d") ∧
        (∀ x ∈ [(⟨1, "a", some "d"⟩ : Resource), ⟨2, "b", none⟩], x.id ≠ r2.id →
          x ∈ (updateResource [⟨1, "a", some "d"⟩, ⟨2, "b", none⟩] 1 ⟨none, none⟩).2) :=
  ⟨by decide, cl10_updateResource_frame _ 1 ⟨none, none⟩ ⟨1, "a", some "d"⟩ (by decide)⟩

/-! ## Score-update pipeline

The concurrent score-update core (IdempotencyLedger, ScoreStore, RankIndex,
UpdatePipeline) has no implementation in the repository: the design
documents only sketch fragments of it.  The definitions below are therefore
modelled from the spec (§3, §4.1, §4.3, §5).  Per the spec's per-user
exclusion (§5), same-user submissions serialize, so one submission is
modelled as a single atomic step on the state. -/

/-- Modelled from the spec: §3 `ActionDefinition` - per-action reward and
cooldown, from the registry the repository never implements. -/
structure ActionDefinition where
  rewardAmount : Int
  cooldownSeconds : Int
deriving DecidableEq

/-- Modelled from the spec: §3 `Submission`. -/
structure Submission where
  userID : String
  actionID : String
  clientTimestamp : Int
  requestID : String
  sourceIP : String
deriving DecidableEq

/-- Modelled from the spec: §3 `CompletionRecord`, keyed by
`(userID, requestID)` per the idempotency invariant; `resultScore` and
`resultVersion` record the original result replayed on `DuplicateRequest`. -/
structure CompletionRecord where
  userID : String
  actionID : String
  requestID : String
  rewardApplied : Int
  appliedAt : Int
  resultScore : Int
  resultVersion : Nat
deriving DecidableEq

/-- Modelled from the spec: §3 `RankChange` event (the rank positions are
derived data of RankIndex and are not needed by any claim). -/
structure RankChange where
  userID : String
  previousScore : Int
  newScore : Int
  version : Nat
  suspicious : Bool
  reasons : List String
deriving DecidableEq

/-- Modelled from the spec: §4.2 - the FraudScorer's advisory output. -/
structure FraudResult where
  suspicionScore : Int
  reasons : List String
deriving DecidableEq

/-- Modelled from the spec: §6 - the synchronous result of `submit`. -/
inductive SubmitResult where
  | accepted (newScore : Int) (version : Nat)
  | duplicateRequest (original : CompletionRecord)
  | onCooldown (retryAfter : Int)
  | rejectedInternalError
  | unknownAction
deriving DecidableEq

/-- Modelled from the spec: the shared state - ScoreStore (score and
version per user), the CompletionRecord ledger, the in-flight idempotency
reservations, the RankIndex entry per user, and the emitted RankChange
events (newest first). -/
structure PipelineState where
  score : String → Int
  version : String → Nat
  completions : List CompletionRecord
  reservations : List (String × String)
  rankIndex : String → Option (Int × Nat)
  events : List RankChange

/-- The ledger's `(userID, requestID)` lookup: the CompletionRecord of an
already-applied submission with this idempotency key, if any. -/
def findCompletion (u rid : String) (cs : List CompletionRecord) :
    Option CompletionRecord :=
  cs.find? (fun r => r.userID == u && r.requestID == rid)

/-- The time of the most recent completion of action `a` by user `u`. -/
def lastCompletionAt (u a : String) : List CompletionRecord → Option Int
  | [] => none
  | r :: rs =>
      let rest := lastCompletionAt u a rs
      if r.userID = u ∧ r.actionID = a then
        some (match rest with
          | none => r.appliedAt
          | some t => max r.appliedAt t)
      else rest

/-- Whether the per-action cooldown has expired for `(u, a)` at `now`. -/
def cooldownExpired (cd : Int) (u a : String) (now : Int)
    (cs : List CompletionRecord) : Bool :=
  match lastCompletionAt u a cs with
  | none => true
  | some t => decide (t + cd ≤ now)

/-- Modelled from the spec: §4.1 - the three possible answers of
`IdempotencyLedger.checkAndReserve`. -/
inductive GateResult where
  | dup (original : CompletionRecord)
  | cooldown (retryAfter : Int)
  | accepted
deriving DecidableEq

/-- Modelled from the spec: §4.1 `IdempotencyLedger.checkAndReserve` -
an existing CompletionRecord for `(userID, requestID)` yields
`DuplicateRequest` with the original record; otherwise a completion of this
action within `cooldownSeconds` yields `OnCooldown` with the cooldown
expiry; otherwise the slot is reserved atomically. -/
def checkAndReserve (cd : Int) (u a rid : String) (now : Int)
    (s : PipelineState) : GateResult × PipelineState :=
  match findCompletion u rid s.completions with
  | some r => (.dup r, s)
  | none =>
      match lastCompletionAt u a s.completions with
      | some t =>
          if now < t + cd then (.cooldown (t + cd), s)
          else (.accepted, { s with reservations := (u, rid) :: s.reservations })
      | none => (.accepted, { s with reservations := (u, rid) :: s.reservations })

/-- Modelled from the spec: §4.3 steps 1-6 of `Annotated → Committed`,
run under the per-user exclusion: read `(score, version)`, compute
`newScore`, write `(newScore, version + 1)`, update RankIndex, finalize the
reservation into a CompletionRecord, and emit the RankChange event. -/
def commitApply (act : ActionDefinition) (sub : Submission) (now : Int)
    (fraud : FraudResult) (s : PipelineState) : SubmitResult × PipelineState :=
  let u := sub.userID
  let oldScore := s.score u
  let v := s.version u
  let ns := oldScore + act.rewardAmount
  let rec1 : CompletionRecord :=
    ⟨u, sub.actionID, sub.requestID, act.rewardAmount, now, ns, v + 1⟩
  let ev : RankChange :=
    ⟨u, oldScore, ns, v + 1, decide (fraud.suspicionScore > 70), fraud.reasons⟩
  (.accepted ns (v + 1),
   { score := Function.update s.score u ns
     version := Function.update s.version u (v + 1)
     completions := rec1 :: s.completions
     reservations := s.reservations.erase (u, sub.requestID)
     rankIndex := Function.update s.rankIndex u (some (ns, v + 1))
     events := ev :: s.events })

/-- Modelled from the spec: §4.3 `UpdatePipeline` for one submission -
catalog lookup (`UnknownAction` rejected without side effects, §7), the
idempotency/cooldown gate, the advisory fraud annotation `fraud`, and the
atomic commit.  `failure` models an infrastructure failure of the commit
steps: then no step's effect persists, the reservation is released, and the
submission is `Rejected(InternalError)`. -/
def processSubmission (catalog : String → Option ActionDefinition)
    (fraud : FraudResult) (failure : Bool) (now : Int) (sub : Submission)
    (s : PipelineState) : SubmitResult × PipelineState :=
  match catalog sub.actionID with
  | none => (.unknownAction, s)
  | some act =>
      match checkAndReserve act.cooldownSeconds sub.userID sub.actionID
          sub.requestID now s with
      | (.dup r, s1) => (.duplicateRequest r, s1)
      | (.cooldown t, s1) => (.onCooldown t, s1)
      | (.accepted, s1) =>
          if failure then
            (.rejectedInternalError,
             { s1 with reservations :=
                s1.reservations.erase (sub.userID, sub.requestID) })
          else commitApply act sub now fraud s1

/-- `FraudScorer.evaluate` (spec §4.2): the scoring rule of
`detectAnomalies` packaged under the spec's contract.  `userID` and
`actionID` take part in no check - the checks read only the reward and the
recent history - so they are unused. -/
def evaluate (userID actionID : String) (rewardAmount : Int)
    (recentHistory : RecentHistory) : FraudResult :=
  ⟨(detectAnomalies rewardAmount recentHistory).2.1,
    (detectAnomalies rewardAmount recentHistory).2.2⟩

/-- At most one CompletionRecord per `(userID, requestID)` key. -/
def uniqueCompletions (cs : List CompletionRecord) : Prop :=
  cs.Pairwise (fun r1 r2 => ¬(r1.userID = r2.userID ∧ r1.requestID = r2.requestID))

/-- Modelled from the spec: §5 - the per-user exclusion serializes a batch
of same-user submissions, so a concurrent batch executes as some sequence;
each element carries its submission and its arrival time. -/
def processAll (catalog : String → Option ActionDefinition)
    (fraud : FraudResult) : List (Submission × Int) → PipelineState → PipelineState
  | [], s => s
  | p :: rest, s =>
      processAll catalog fraud rest (processSubmission catalog fraud false p.2 p.1 s).2

/-- The reward the catalog assigns to a submission's action. -/
def rewardOf (catalog : String → Option ActionDefinition) (sub : Submission) : Int :=
  match catalog sub.actionID with
  | some act => act.rewardAmount
  | none => 0

/-- The hypotheses under which a batch of submissions for user `u` is made
of distinct valid submissions: all for `u`, all actions known, no request
already applied, no action cooling down, and pairwise distinct requestIDs
and actionIDs. -/
@[reducible] def batchOK (catalog : String → Option ActionDefinition) (u : String)
    (s : PipelineState) (subs : List (Submission × Int)) : Prop :=
  (∀ p ∈ subs, p.1.userID = u) ∧
  (∀ p ∈ subs, (catalog p.1.actionID).isSome = true) ∧
  (∀ p ∈ subs, findCompletion u p.1.requestID s.completions = none) ∧
  (∀ p ∈ subs, lastCompletionAt u p.1.actionID s.completions = none) ∧
  subs.Pairwise (fun p q => p.1.requestID ≠ q.1.requestID ∧ p.1.actionID ≠ q.1.actionID)

lemma processSubmission_dup {catalog : String → Option ActionDefinition}
    {fraud : FraudResult} {failure : Bool} {now : Int} {sub : Submission}
    {s : PipelineState} {act : ActionDefinition} {r : CompletionRecord}
    (hact : catalog sub.actionID = some act)
    (hfind : findCompletion sub.userID sub.requestID s.completions = some r) :
    processSubmission catalog fraud failure now sub s = (.duplicateRequest r, s) := by
  unfold processSubmission checkAndReserve
  rw [hact, hfind]

lemma processSubmission_gatePass {catalog : String → Option ActionDefinition}
    {fraud : FraudResult} {failure : Bool} {now : Int} {sub : Submission}
    {s : PipelineState} {act : ActionDefinition}
    (hact : catalog sub.actionID = some act)
    (hfind : findCompletion sub.userID sub.requestID s.completions = none)
    (hcd : cooldownExpired act.cooldownSeconds sub.userID sub.actionID now
      s.completions = true) :
    processSubmission catalog fraud failure now sub s =
      if failure then
        (.rejectedInternalError, s)
      else
        commitApply act sub now fraud
          { s with reservations := (sub.userID, sub.requestID) :: s.reservations } := by
  unfold processSubmission checkAndReserve
  rw [hact, hfind]
  unfold cooldownExpired at hcd
  have hres : ((sub.userID, sub.requestID) :: s.reservations).erase
      (sub.userID, sub.requestID) = s.reservations := List.erase_cons_head _ _
  cases hlast : lastCompletionAt sub.userID sub.actionID s.completions with
  | none =>
      dsimp only
      rw [hres]
  | some t =>
      have ht : ¬ now < t + act.cooldownSeconds := by
        rw [hlast] at hcd
        simp at hcd
        omega
      dsimp only
      rw [if_neg ht]
      dsimp only
      rw [hres]

lemma findCompletion_eq_none_iff {u rid : String} {cs : List CompletionRecord} :
    findCompletion u rid cs = none ↔
      ∀ r ∈ cs, ¬(r.userID = u ∧ r.requestID = rid) := by
  unfold findCompletion
  rw [List.find?_eq_none]
  simp

lemma processSubmission_completions_cases
    (catalog : String → Option ActionDefinition) (fraud : FraudResult)
    (failure : Bool) (now : Int) (sub : Submission) (s : PipelineState) :
    (processSubmission catalog fraud failure now sub s).2.completions =
        s.completions ∨
      (findCompletion sub.userID sub.requestID s.completions = none ∧
        ∃ ra rs rv,
          (processSubmission catalog fraud failure now sub s).2.completions =
            (⟨sub.userID, sub.actionID, sub.requestID, ra, now, rs, rv⟩ :
              CompletionRecord) :: s.completions) := by
  unfold processSubmission checkAndReserve commitApply
  cases hact : catalog sub.actionID with
  | none => left; rfl
  | some act =>
    cases hfind : findCompletion sub.userID sub.requestID s.completions with
    | some r => left; rfl
    | none =>
      cases hlast : lastCompletionAt sub.userID sub.actionID s.completions with
      | some t =>
        dsimp only
        by_cases hlt : now < t + act.cooldownSeconds
        · left
          rw [if_pos hlt]
        · rw [if_neg hlt]
          dsimp only
          by_cases hf : failure
          · left
            rw [if_pos hf]
          · right
            rw [if_neg hf]
            exact ⟨rfl, act.rewardAmount, _, _, rfl⟩
      | none =>
        dsimp only
        by_cases hf : failure
        · left
          rw [if_pos hf]
        · right
          rw [if_neg hf]
          exact ⟨rfl, act.rewardAmount, _, _, rfl⟩

lemma processSubmission_preserves_unique
    (catalog : String → Option ActionDefinition) (fraud : FraudResult)
    (failure : Bool) (now : Int) (sub : Submission) (s : PipelineState)
    (h : uniqueCompletions s.completions) :
    uniqueCompletions
      (processSubmission catalog fraud failure now sub s).2.completions := by
  rcases processSubmission_completions_cases catalog fraud failure now sub s with
    heq | ⟨hnone, ra, rs, rv, heq⟩
  · rw [heq]; exact h
  · rw [heq]
    refine List.Pairwise.cons ?_ h
    intro r hr hk
    exact findCompletion_eq_none_iff.mp hnone r hr ⟨hk.1.symm, hk.2.symm⟩

lemma processSubmission_onCooldown {catalog : String → Option ActionDefinition}
    {fraud : FraudResult} {failure : Bool} {now t : Int} {sub : Submission}
    {s : PipelineState} {act : ActionDefinition}
    (hact : catalog sub.actionID = some act)
    (hfind : findCompletion sub.userID sub.requestID s.completions = none)
    (hlast : lastCompletionAt sub.userID sub.actionID s.completions = some t)
    (hlt : now < t + act.cooldownSeconds) :
    processSubmission catalog fraud failure now sub s =
      (.onCooldown (t + act.cooldownSeconds), s) := by
  unfold processSubmission checkAndReserve
  rw [hact, hfind, hlast]
  dsimp only
  rw [if_pos hlt]

lemma processSubmission_commit {catalog : String → Option ActionDefinition}
    {fraud : FraudResult} {now : Int} {sub : Submission}
    {s : PipelineState} {act : ActionDefinition}
    (hact : catalog sub.actionID = some act)
    (hfind : findCompletion sub.userID sub.requestID s.completions = none)
    (hcd : cooldownExpired act.cooldownSeconds sub.userID sub.actionID now
      s.completions = true) :
    processSubmission catalog fraud false now sub s =
      commitApply act sub now fraud
        { s with reservations := (sub.userID, sub.requestID) :: s.reservations } := by
  rw [processSubmission_gatePass hact hfind hcd]
  rfl

/-- C1: once a submission with key `(userID, requestID)` has been applied -
a CompletionRecord `r` for that key exists - resubmitting that key any
number of times returns `DuplicateRequest` carrying the original record,
leaves the whole state (in particular the user's score and version)
unchanged, and every pipeline step preserves the invariant that at most one
CompletionRecord exists per `(userID, requestID)`. -/
theorem cl1_duplicate_request_idempotent
    (catalog : String → Option ActionDefinition) (fraud : FraudResult)
    (failure : Bool) (now : Int) (sub : Submission) (s : PipelineState)
    (act : ActionDefinition) (r : CompletionRecord)
    (hact : catalog sub.actionID = some act)
    (hfind : findCompletion sub.userID sub.requestID s.completions = some r) :
    processSubmission catalog fraud failure now sub s =
        (.duplicateRequest r, s) ∧
      (∀ n : Nat,
        (fun t => (processSubmission catalog fraud failure now sub t).2)^[n] s = s) ∧
      ((processSubmission catalog fraud failure now sub s).2.score sub.userID =
          s.score sub.userID ∧
        (processSubmission catalog fraud failure now sub s).2.version sub.userID =
          s.version sub.userID) ∧
      (∀ (fraud' : FraudResult) (failure' : Bool) (now' : Int) (sub' : Submission)
          (s' : PipelineState), uniqueCompletions s'.completions →
        uniqueCompletions
          (processSubmission catalog fraud' failure' now' sub' s').2.completions) := by
  have hstep : processSubmission catalog fraud failure now sub s =
      (.duplicateRequest r, s) := processSubmission_dup hact hfind
  refine ⟨hstep, ?_, ?_, ?_⟩
  · intro n
    apply Function.iterate_fixed
    rw [hstep]
  · rw [hstep]
    exact ⟨rfl, rfl⟩
  · intro fraud' failure' now' sub' s' hu
    exact processSubmission_preserves_unique catalog fraud' failure' now' sub' s' hu

/-- C2: if the commit fails, the five-step commit is atomic - the returned
state is exactly the pre-submission state (score, version, rank index,
ledger, reservations and events all unchanged), the outcome is
`Rejected(InternalError)`, and a retry with the same requestID is accepted. -/
theorem cl2_commit_atomic_rollback
    (catalog : String → Option ActionDefinition) (fraud fraud' : FraudResult)
    (now now' : Int) (sub : Submission) (s : PipelineState)
    (act : ActionDefinition)
    (hact : catalog sub.actionID = some act)
    (hfind : findCompletion sub.userID sub.requestID s.completions = none)
    (hcd : cooldownExpired act.cooldownSeconds sub.userID sub.actionID now
      s.completions = true)
    (hcd' : cooldownExpired act.cooldownSeconds sub.userID sub.actionID now'
      s.completions = true) :
    processSubmission catalog fraud true now sub s =
        (.rejectedInternalError, s) ∧
      (processSubmission catalog fraud' false now' sub s).1 =
        .accepted (s.score sub.userID + act.rewardAmount)
          (s.version sub.userID + 1) := by
  constructor
  · rw [processSubmission_gatePass hact hfind hcd]
    rfl
  · rw [processSubmission_gatePass hact hfind hcd']
    rfl

/-- C3: each applied mutation writes exactly `version + 1` to the store
(so the stored version strictly increases), and the RankChange event
emitted by the commit carries exactly the version (and score) stored for
that user at emission time. -/
theorem cl3_version_monotone_event_fresh
    (catalog : String → Option ActionDefinition) (fraud : FraudResult)
    (now : Int) (sub : Submission) (s : PipelineState) (act : ActionDefinition)
    (hact : catalog sub.actionID = some act)
    (hfind : findCompletion sub.userID sub.requestID s.completions = none)
    (hcd : cooldownExpired act.cooldownSeconds sub.userID sub.actionID now
      s.completions = true) :
    (processSubmission catalog fraud false now sub s).1 =
        .accepted (s.score sub.userID + act.rewardAmount)
          (s.version sub.userID + 1) ∧
      (processSubmission catalog fraud false now sub s).2.version sub.userID =
        s.version sub.userID + 1 ∧
      s.version sub.userID <
        (processSubmission catalog fraud false now sub s).2.version sub.userID ∧
      (∃ e : RankChange,
        (processSubmission catalog fraud false now sub s).2.events =
            e :: s.events ∧
          e.userID = sub.userID ∧
          e.version =
            (processSubmission catalog fraud false now sub s).2.version
              sub.userID ∧
          e.newScore =
            (processSubmission catalog fraud false now sub s).2.score
              sub.userID) := by
  rw [processSubmission_commit hact hfind hcd]
  unfold commitApply
  dsimp only
  refine ⟨rfl, ?_, ?_, ?_⟩
  · simp [Function.update_same]
  · simp [Function.update_same]
  · refine ⟨_, rfl, rfl, ?_, ?_⟩
    · simp [Function.update_same]
    · simp [Function.update_same]

lemma findCompletion_cons (u rid : String) (r : CompletionRecord)
    (cs : List CompletionRecord) :
    findCompletion u rid (r :: cs) =
      if r.userID = u ∧ r.requestID = rid then some r
      else findCompletion u rid cs := by
  unfold findCompletion
  by_cases h : r.userID = u ∧ r.requestID = rid
  · rw [if_pos h]
    exact List.find?_cons_of_pos _ (by simp [h.1, h.2])
  · rw [if_neg h]
    exact List.find?_cons_of_neg _ (by simpa using h)

lemma lastCompletionAt_cons (u a : String) (r : CompletionRecord)
    (cs : List CompletionRecord) :
    lastCompletionAt u a (r :: cs) =
      if r.userID = u ∧ r.actionID = a then
        some (match lastCompletionAt u a cs with
          | none => r.appliedAt
          | some t => max r.appliedAt t)
      else lastCompletionAt u a cs := rfl

/-- C5: after a user's submission of an action is committed at time `t0`,
a second submission of the same action by the same user (with a fresh
requestID) at a time within `cooldownSeconds` of `t0` returns `OnCooldown`
carrying `retryAfter = t0 + cooldownSeconds` (the configured cooldown after
the most recent completion) and changes nothing; and once the cooldown has
elapsed the same submission is accepted. -/
theorem cl5_cooldown_enforced
    (catalog : String → Option ActionDefinition)
    (fraud1 fraud2 fraud3 : FraudResult) (failure2 : Bool)
    (t0 now2 now3 : Int) (sub1 sub2 : Submission) (s : PipelineState)
    (act : ActionDefinition)
    (hact : catalog sub1.actionID = some act)
    (hfind1 : findCompletion sub1.userID sub1.requestID s.completions = none)
    (hlast : lastCompletionAt sub1.userID sub1.actionID s.completions = none)
    (hu : sub2.userID = sub1.userID) (ha : sub2.actionID = sub1.actionID)
    (hrid : sub2.requestID ≠ sub1.requestID)
    (hfind2 : findCompletion sub1.userID sub2.requestID s.completions = none)
    (hwithin : now2 < t0 + act.cooldownSeconds)
    (hafter : t0 + act.cooldownSeconds ≤ now3) :
    processSubmission catalog fraud2 failure2 now2 sub2
        (processSubmission catalog fraud1 false t0 sub1 s).2 =
      (.onCooldown (t0 + act.cooldownSeconds),
        (processSubmission catalog fraud1 false t0 sub1 s).2) ∧
    (processSubmission catalog fraud3 false now3 sub2
        (processSubmission catalog fraud1 false t0 sub1 s).2).1 =
      .accepted
        ((processSubmission catalog fraud1 false t0 sub1 s).2.score sub2.userID +
          act.rewardAmount)
        ((processSubmission catalog fraud1 false t0 sub1 s).2.version sub2.userID
          + 1) := by
  have hcd1 : cooldownExpired act.cooldownSeconds sub1.userID sub1.actionID t0
      s.completions = true := by
    unfold cooldownExpired
    rw [hlast]
  have hs1c : (processSubmission catalog fraud1 false t0 sub1 s).2.completions =
      (⟨sub1.userID, sub1.actionID, sub1.requestID, act.rewardAmount, t0,
        s.score sub1.userID + act.rewardAmount, s.version sub1.userID + 1⟩ :
        CompletionRecord) :: s.completions := by
    rw [processSubmission_commit hact hfind1 hcd1]
    rfl
  have hact2 : catalog sub2.actionID = some act := by
    rw [ha]
    exact hact
  have hfind2' : findCompletion sub2.userID sub2.requestID
      (processSubmission catalog fraud1 false t0 sub1 s).2.completions = none := by
    rw [hs1c, findCompletion_cons, if_neg (by simp [hrid.symm]), hu]
    exact hfind2
  have hlast2 : lastCompletionAt sub2.userID sub2.actionID
      (processSubmission catalog fraud1 false t0 sub1 s).2.completions =
        some t0 := by
    rw [hs1c, hu, ha, lastCompletionAt_cons, if_pos ⟨rfl, rfl⟩, hlast]
  constructor
  · exact processSubmission_onCooldown hact2 hfind2' hlast2 hwithin
  · have hcd3 : cooldownExpired act.cooldownSeconds sub2.userID sub2.actionID
        now3 (processSubmission catalog fraud1 false t0 sub1 s).2.completions =
          true := by
      unfold cooldownExpired
      rw [hlast2]
      simp [hafter]
    rw [processSubmission_commit hact2 hfind2' hcd3]
    rfl

/-- The fraud-independent core of a RankChange event: everything except the
advisory `suspicious` flag and `reasons`. -/
def eventCore (e : RankChange) : String × Int × Int × Nat :=
  (e.userID, e.previousScore, e.newScore, e.version)

/-- C6: the FraudScorer is pure and advisory.  `evaluate` returns equal
results on equal inputs (it reads nothing outside its arguments), and the
pipeline outcome is independent of the fraud annotation: for any two fraud
results the submission result, scores, versions, ledger, reservations and
rank index coincide - the annotation never mutates state and never rejects
a submission - and the emitted events differ at most in the advisory
fields. -/
theorem cl6_fraud_scorer_pure_advisory
    (catalog : String → Option ActionDefinition) (f1 f2 : FraudResult)
    (failure : Bool) (now : Int) (sub : Submission) (s : PipelineState) :
    (∀ (u a : String) (reward : Int) (h1 h2 : RecentHistory), h1 = h2 →
      evaluate u a reward h1 = evaluate u a reward h2) ∧
    (processSubmission catalog f1 failure now sub s).1 =
      (processSubmission catalog f2 failure now sub s).1 ∧
    (processSubmission catalog f1 failure now sub s).2.score =
      (processSubmission catalog f2 failure now sub s).2.score ∧
    (processSubmission catalog f1 failure now sub s).2.version =
      (processSubmission catalog f2 failure now sub s).2.version ∧
    (processSubmission catalog f1 failure now sub s).2.completions =
      (processSubmission catalog f2 failure now sub s).2.completions ∧
    (processSubmission catalog f1 failure now sub s).2.reservations =
      (processSubmission catalog f2 failure now sub s).2.reservations ∧
    (processSubmission catalog f1 failure now sub s).2.rankIndex =
      (processSubmission catalog f2 failure now sub s).2.rankIndex ∧
    (processSubmission catalog f1 failure now sub s).2.events.map eventCore =
      (processSubmission catalog f2 failure now sub s).2.events.map eventCore := by
  refine ⟨fun u a reward h1 h2 he => by rw [he], ?_⟩
  unfold processSubmission checkAndReserve commitApply
  cases hact : catalog sub.actionID with
  | none => exact ⟨rfl, rfl, rfl, rfl, rfl, rfl, rfl⟩
  | some act =>
    cases hfind : findCompletion sub.userID sub.requestID s.completions with
    | some r => exact ⟨rfl, rfl, rfl, rfl, rfl, rfl, rfl⟩
    | none =>
      cases hlast : lastCompletionAt sub.userID sub.actionID s.completions with
      | some t =>
        dsimp only
        by_cases hlt : now < t + act.cooldownSeconds
        · rw [if_pos hlt]
          exact ⟨rfl, rfl, rfl, rfl, rfl, rfl, rfl⟩
        · rw [if_neg hlt]
          dsimp only
          by_cases hf : failure
          · rw [if_pos hf, if_pos hf]
            exact ⟨rfl, rfl, rfl, rfl, rfl, rfl, rfl⟩
          · rw [if_neg hf, if_neg hf]
            exact ⟨rfl, rfl, rfl, rfl, rfl, rfl, by simp [eventCore]⟩
      | none =>
        dsimp only
        by_cases hf : failure
        · rw [if_pos hf, if_pos hf]
          exact ⟨rfl, rfl, rfl, rfl, rfl, rfl, rfl⟩
        · rw [if_neg hf, if_neg hf]
          exact ⟨rfl, rfl, rfl, rfl, rfl, rfl, by simp [eventCore]⟩

lemma processAll_batch (catalog : String → Option ActionDefinition)
    (fraud : FraudResult) (u : String) :
    ∀ (subs : List (Submission × Int)) (s : PipelineState),
      batchOK catalog u s subs →
        (processAll catalog fraud subs s).score u =
            s.score u + (subs.map (fun p => rewardOf catalog p.1)).sum ∧
          (processAll catalog fraud subs s).version u =
            s.version u + subs.length := by
  intro subs
  induction subs with
  | nil =>
    intro s _
    exact ⟨by simp [processAll], by simp [processAll]⟩
  | cons p rest ih =>
    intro s h
    obtain ⟨hu, hcat, hfind, hlast, hpair⟩ := h
    have hu0 : p.1.userID = u := hu p (by simp)
    obtain ⟨act, hact⟩ : ∃ act, catalog p.1.actionID = some act := by
      have hs := hcat p (by simp)
      cases hc : catalog p.1.actionID with
      | none => rw [hc] at hs; simp at hs
      | some a => exact ⟨a, rfl⟩
    have hfind0 : findCompletion p.1.userID p.1.requestID s.completions = none := by
      rw [hu0]
      exact hfind p (by simp)
    have hlast0 : lastCompletionAt p.1.userID p.1.actionID s.completions = none := by
      rw [hu0]
      exact hlast p (by simp)
    have hcd0 : cooldownExpired act.cooldownSeconds p.1.userID p.1.actionID p.2
        s.completions = true := by
      unfold cooldownExpired
      rw [hlast0]
    have hpairhead := (List.pairwise_cons.mp hpair).1
    have hpairtail := (List.pairwise_cons.mp hpair).2
    have hstep : processSubmission catalog fraud false p.2 p.1 s =
        commitApply act p.1 p.2 fraud
          { s with reservations := (p.1.userID, p.1.requestID) :: s.reservations } :=
      processSubmission_commit hact hfind0 hcd0
    rw [processAll, hstep]
    set s1 := (commitApply act p.1 p.2 fraud
      { s with reservations := (p.1.userID, p.1.requestID) :: s.reservations }).2
      with hs1
    have hs1score : s1.score u = s.score u + act.rewardAmount := by
      rw [hs1]
      unfold commitApply
      dsimp only
      rw [hu0]
      simp [Function.update_same]
    have hs1version : s1.version u = s.version u + 1 := by
      rw [hs1]
      unfold commitApply
      dsimp only
      rw [hu0]
      simp [Function.update_same]
    have hs1comp : s1.completions =
        (⟨p.1.userID, p.1.actionID, p.1.requestID, act.rewardAmount, p.2,
          s.score p.1.userID + act.rewardAmount, s.version p.1.userID + 1⟩ :
          CompletionRecord) :: s.completions := by
      rw [hs1]
      unfold commitApply
      rfl
    have hok1 : batchOK catalog u s1 rest := by
      refine ⟨fun q hq => hu q (by simp [hq]),
        fun q hq => hcat q (by simp [hq]), ?_, ?_,  hpairtail⟩
      · intro q hq
        rw [hs1comp, findCompletion_cons,
          if_neg (fun hc => (hpairhead q hq).1 hc.2)]
        exact hfind q (by simp [hq])
      · intro q hq
        rw [hs1comp, lastCompletionAt_cons,
          if_neg (fun hc => (hpairhead q hq).2 hc.2)]
        exact hlast q (by simp [hq])
    have hrest := ih s1 hok1
    have hrw : rewardOf catalog p.1 = act.rewardAmount := by
      unfold rewardOf
      rw [hact]
    constructor
    · rw [hrest.1, hs1score]
      simp [hrw]
      ring
    · rw [hrest.2, hs1version]
      simp
      omega

/-- C7: no lost updates.  For a batch of distinct valid submissions for
one user, processed serially under the per-user exclusion in any order
(every interleaving of same-user submissions is some permutation), the
final score is the initial score plus the sum of all rewards and the final
version is the initial version plus the batch size. -/
theorem cl7_no_lost_updates
    (catalog : String → Option ActionDefinition) (fraud : FraudResult)
    (u : String) (s : PipelineState) (subs subs' : List (Submission × Int))
    (hperm : subs'.Perm subs) (hok : batchOK catalog u s subs) :
    (processAll catalog fraud subs' s).score u =
        s.score u + (subs.map (fun p => rewardOf catalog p.1)).sum ∧
      (processAll catalog fraud subs' s).version u =
        s.version u + subs.length := by
  have hok' : batchOK catalog u s subs' := by
    obtain ⟨h1, h2, h3, h4, h5⟩ := hok
    refine ⟨fun p hp => h1 p (hperm.mem_iff.mp hp),
      fun p hp => h2 p (hperm.mem_iff.mp hp),
      fun p hp => h3 p (hperm.mem_iff.mp hp),
      fun p hp => h4 p (hperm.mem_iff.mp hp), ?_⟩
    exact (hperm.pairwise_iff
      (by intro x y hxy; exact ⟨hxy.1.symm, hxy.2.symm⟩)).mpr h5
  have hmain := processAll_batch catalog fraud u subs' s hok'
  have hsum : (subs'.map (fun p => rewardOf catalog p.1)).sum =
      (subs.map (fun p => rewardOf catalog p.1)).sum :=
    (hperm.map (fun p => rewardOf catalog p.1)).sum_eq
  have hlen : subs'.length = subs.length := hperm.length_eq
  exact ⟨by rw [hmain.1, hsum], by rw [hmain.2, hlen]⟩

/-! ## Concrete instances used by the witness theorems -/

/-- A two-action catalog: `a1` rewards 50 with a 5 second cooldown, `a2`
rewards 30 with no cooldown. -/
def catalog0 : String → Option ActionDefinition := fun a =>
  if a = "a1" then some ⟨50, 5⟩
  else if a = "a2" then some ⟨30, 0⟩
  else none

/-- The empty initial state. -/
def state0 : PipelineState :=
  { score := fun _ => 0
    version := fun _ => 0
    completions := []
    reservations := []
    rankIndex := fun _ => none
    events := [] }

/-- The CompletionRecord left by `sub1w` applied to `state0` at `t = 0`. -/
def rec0 : CompletionRecord := ⟨"u1", "a1", "r1", 50, 0, 50, 1⟩

/-- The state after `sub1w` has been applied to `state0`. -/
def state1 : PipelineState :=
  { state0 with
    score := fun u => if u = "u1" then 50 else 0
    version := fun u => if u = "u1" then 1 else 0
    completions := [rec0] }

def sub1w : Submission := ⟨"u1", "a1", 0, "r1", "ip1"⟩

def sub2w : Submission := ⟨"u1", "a1", 2, "r2", "ip1"⟩

def sub3w : Submission := ⟨"u1", "a2", 1, "r3", "ip1"⟩

def fraud0 : FraudResult := ⟨0, []⟩

def fraud9 : FraudResult := ⟨90, ["suspicious"]⟩

/-- C1 witness: resubmitting the already-applied `(u1, r1)` returns
`DuplicateRequest` with the original record and the unchanged state. -/
theorem cl1_witness :
    processSubmission catalog0 fraud0 false 1 sub1w state1 =
      (.duplicateRequest rec0, state1) :=
  (cl1_duplicate_request_idempotent catalog0 fraud0 false 1 sub1w state1
    ⟨50, 5⟩ rec0 (by decide) (by decide)).1

/-- C2 witness: a failing commit leaves the empty state untouched and is
rejected with InternalError. -/
theorem cl2_witness :
    processSubmission catalog0 fraud0 true 1 sub1w state0 =
      (.rejectedInternalError, state0) :=
  (cl2_commit_atomic_rollback catalog0 fraud0 fraud0 1 1 sub1w state0 ⟨50, 5⟩
    (by decide) (by decide) (by decide) (by decide)).1

/-- C3 witness: applying `sub1w` to the empty state writes version 0 + 1. -/
theorem cl3_witness :
    (processSubmission catalog0 fraud0 false 1 sub1w state0).2.version
        sub1w.userID = state0.version sub1w.userID + 1 :=
  (cl3_version_monotone_event_fresh catalog0 fraud0 1 sub1w state0 ⟨50, 5⟩
    (by decide) (by decide) (by decide)).2.1

/-- C5 witness: after `a1` is completed at `t = 0`, resubmitting `a1` with a
fresh requestID at `t = 2` is on cooldown until `t = 5`. -/
theorem cl5_witness :
    processSubmission catalog0 fraud0 false 2 sub2w
        (processSubmission catalog0 fraud0 false 0 sub1w state0).2 =
      (.onCooldown (0 + 5),
        (processSubmission catalog0 fraud0 false 0 sub1w state0).2) :=
  (cl5_cooldown_enforced catalog0 fraud0 fraud0 fraud0 false 0 2 6 sub1w sub2w
    state0 ⟨50, 5⟩ (by decide) (by decide) (by decide) rfl rfl (by decide)
    (by decide) (by decide) (by decide)).1

/-- C6 witness: the scorer returns equal results on equal inputs, and the
submission outcome is the same under a suspicious and a clean annotation. -/
theorem cl6_witness :
    evaluate "u1" "a1" 6 allChecksInput = evaluate "u1" "a1" 6 allChecksInput ∧
      (processSubmission catalog0 fraud9 false 1 sub1w state0).1 =
        (processSubmission catalog0 fraud0 false 1 sub1w state0).1 :=
  ⟨(cl6_fraud_scorer_pure_advisory catalog0 fraud9 fraud0 false 1 sub1w
      state0).1 "u1" "a1" 6 allChecksInput allChecksInput rfl,
    (cl6_fraud_scorer_pure_advisory catalog0 fraud9 fraud0 false 1 sub1w
      state0).2.1⟩

/-- C7 witness: two distinct valid submissions (rewards 50 and 30)
processed in either order give final score 80 and final version 2. -/
theorem cl7_witness :
    (processAll catalog0 fraud0 [(sub3w, 1), (sub1w, 0)] state0).score "u1" =
        state0.score "u1" +
          (([(sub1w, 0), (sub3w, 1)] : List (Submission × Int)).map
            (fun p => rewardOf catalog0 p.1)).sum ∧
      (processAll catalog0 fraud0 [(sub3w, 1), (sub1w, 0)] state0).version
          "u1" =
        state0.version "u1" +
          ([(sub1w, 0), (sub3w, 1)] : List (Submission × Int)).length :=
  cl7_no_lost_updates catalog0 fraud0 "u1" state0 [(sub1w, 0), (sub3w, 1)]
    [(sub3w, 1), (sub1w, 0)] (by decide) (by decide)
